import Mathlib

/-!
# Verification of the SpeedCrunch dimensional-math core (`testdmath` slice)

The repository slice contains the test driver `src/tests/testdmath.cpp` and a
settings header; the engine itself (`Quantity`, `DMath`, `Units`,
`CNumber`/`HNumber`) is not part of the slice.  Following the specification,
the engine is modelled here as executable Lean definitions; each such
definition carries a doc comment starting `Modelled from the spec:`.
The test driver's counting logic, which is present in the sources, is
embedded directly from `testdmath.cpp`.
-/

namespace SpeedCrunch

/-! ## Fixed-point kernel (working precision 50 decimal digits)

Modelled from the spec: the engine's `HighPrecisionReal` performs "exact
decimal-style arithmetic at a fixed internal working precision".  The model
uses exact rationals for field operations and a 50-fractional-digit
fixed-point evaluation for the transcendental functions, which is more than
double the 20 displayed digits. -/

def fxShift : ℤ := 10 ^ 50

/-- Fixed-point representative of a rational: `⌊q·10^50⌋` truncated toward 0. -/
def fxOfRat (q : ℚ) : ℤ := Int.tdiv (q.num * fxShift) (q.den : ℤ)

/-- Rational value of a fixed-point integer. -/
def ratOfFx (n : ℤ) : ℚ := (n : ℚ) / (fxShift : ℚ)

/-- Fixed-point multiplication, truncated toward zero. -/
def fxMul (a b : ℤ) : ℤ := Int.tdiv (a * b) fxShift

/-- Pi at working precision (correctly rounded, 50 fractional digits). -/
def piFx : ℤ := 314159265358979323846264338327950288419716939937511

/-- Taylor-series tail for `exp`: fuel, current term, next factorial index. -/
def expFxAux (x : ℤ) : ℕ → ℤ → ℕ → ℤ
  | 0, _, _ => 0
  | fuel + 1, term, k =>
    if term = 0 then 0
    else term + expFxAux x fuel (Int.tdiv (fxMul term x) ((k : ℤ) + 1)) (k + 1)

/-- Fixed-point `exp` by Taylor series (adequate for |x| ≲ 10). -/
def expFx (x : ℤ) : ℤ := expFxAux x 300 fxShift 0

/-- Series tail `Σ tPow/(2j+1)` for `atanh`; `t2` is the fixed-point square. -/
def atanhFxAux (t2 : ℤ) : ℕ → ℤ → ℕ → ℤ
  | 0, _, _ => 0
  | fuel + 1, p, j =>
    if p = 0 then 0
    else Int.tdiv p (2 * (j : ℤ) + 1) + atanhFxAux t2 fuel (fxMul p t2) (j + 1)

/-- Fixed-point `atanh` for |t| ≤ 1/3 (as used after range reduction). -/
def atanhFx (t : ℤ) : ℤ := atanhFxAux (fxMul t t) 200 t 0

/-- ln 2 at working precision, via `2·atanh(1/3)`. -/
def ln2Fx : ℤ := 2 * atanhFx (Int.tdiv fxShift 3)

/-- Range reduction for `ln`: write `q = 2^k · m` with `m ∈ [1, 2)`. -/
def lnReduce : ℕ → ℚ → ℤ × ℚ
  | 0, m => (0, m)
  | fuel + 1, m =>
    if 2 ≤ m then
      let p := lnReduce fuel (m / 2)
      (p.1 + 1, p.2)
    else if m < 1 then
      let p := lnReduce fuel (m * 2)
      (p.1 - 1, p.2)
    else (0, m)

/-- Fixed-point natural logarithm of a positive rational. -/
def lnFx (q : ℚ) : ℤ :=
  let p := lnReduce 600 q
  p.1 * ln2Fx + 2 * atanhFx (fxOfRat ((p.2 - 1) / (p.2 + 1)))

/-- Power of a positive rational base and rational exponent, at working
precision, via `exp (e · ln b)`. -/
def powPosFx (b e : ℚ) : ℚ := ratOfFx (expFx (fxMul (fxOfRat e) (lnFx b)))

/-- Taylor-series tail for sine; `mx2` is `-(x²)` in fixed point. -/
def sinFxAux (mx2 : ℤ) : ℕ → ℤ → ℕ → ℤ
  | 0, _, _ => 0
  | fuel + 1, term, j =>
    if term = 0 then 0
    else term + sinFxAux mx2 fuel
      (Int.tdiv (fxMul term mx2) ((2 * (j : ℤ) + 2) * (2 * (j : ℤ) + 3))) (j + 1)

/-- Fixed-point sine by Taylor series (adequate for |x| ≲ 4). -/
def sinFx (x : ℤ) : ℤ := sinFxAux (-(fxMul x x)) 200 x 0

/-- Taylor-series tail for cosine; `mx2` is `-(x²)` in fixed point. -/
def cosFxAux (mx2 : ℤ) : ℕ → ℤ → ℕ → ℤ
  | 0, _, _ => 0
  | fuel + 1, term, j =>
    if term = 0 then 0
    else term + cosFxAux mx2 fuel
      (Int.tdiv (fxMul term mx2) ((2 * (j : ℤ) + 1) * (2 * (j : ℤ) + 2))) (j + 1)

/-- Fixed-point cosine by Taylor series (adequate for |x| ≲ 4). -/
def cosFx (x : ℤ) : ℤ := cosFxAux (-(fxMul x x)) 200 fxShift 0

/-- Fuel-driven binary search for the integer square root. -/
def natSqrtAux (n : ℕ) : ℕ → ℕ → ℕ → ℕ
  | 0, lo, _ => lo
  | fuel + 1, lo, hi =>
    if hi ≤ lo then lo
    else
      let mid := (lo + hi + 1) / 2
      if mid * mid ≤ n then natSqrtAux n fuel mid hi
      else natSqrtAux n fuel lo (mid - 1)

/-- Integer square root (largest `r` with `r² ≤ n`, for `n < 2^600`). -/
def natSqrtF (n : ℕ) : ℕ := natSqrtAux n 600 0 n

/-- Fuel-driven binary search for the integer `k`-th root. -/
def natRootAux (k n : ℕ) : ℕ → ℕ → ℕ → ℕ
  | 0, lo, _ => lo
  | fuel + 1, lo, hi =>
    if hi ≤ lo then lo
    else
      let mid := (lo + hi + 1) / 2
      if mid ^ k ≤ n then natRootAux k n fuel mid hi
      else natRootAux k n fuel lo (mid - 1)

/-- Integer `k`-th root (largest `r` with `r^k ≤ n`, for `n < 2^600`). -/
def natRootF (k n : ℕ) : ℕ := natRootAux k n 600 0 n

/-- Scaled floor `⌊q·10^s⌋` as a natural number, for `q ≥ 0`. -/
def natFloorScaled (q : ℚ) (s : ℕ) : ℕ := (Int.fdiv (q.num * 10 ^ s) (q.den : ℤ)).toNat

/-- Square root of a nonnegative rational at working precision (exact on
perfect squares of 50-digit grid points). -/
def rsqrtQ (q : ℚ) : ℚ := ((natSqrtF (natFloorScaled q 100) : ℤ) : ℚ) / (fxShift : ℚ)

/-- Real cube root of a rational at working precision, sign-preserving. -/
def rcbrtQ (q : ℚ) : ℚ :=
  if 0 ≤ q then ((natRootF 3 (natFloorScaled q 150) : ℤ) : ℚ) / (fxShift : ℚ)
  else -(((natRootF 3 (natFloorScaled (-q) 150) : ℤ) : ℚ) / (fxShift : ℚ))

/-! ## Numbers: `CNumber` with NaN -/

/-- Modelled from the spec: a `ComplexNumber` is a pair of
`HighPrecisionReal`s, and NaN is a designated value that propagates through
every operation.  The model collapses the special states into one `nan`
constructor; finite values are exact rationals. -/
inductive CNum where
  | nan : CNum
  | val (re im : ℚ) : CNum
deriving DecidableEq

/-- Complex addition with NaN propagation. -/
def addC : CNum → CNum → CNum
  | CNum.val a b, CNum.val c d => CNum.val (a + c) (b + d)
  | _, _ => CNum.nan

/-- Complex subtraction with NaN propagation. -/
def subC : CNum → CNum → CNum
  | CNum.val a b, CNum.val c d => CNum.val (a - c) (b - d)
  | _, _ => CNum.nan

/-- Complex multiplication with NaN propagation. -/
def mulC : CNum → CNum → CNum
  | CNum.val a b, CNum.val c d => CNum.val (a * c - b * d) (a * d + b * c)
  | _, _ => CNum.nan

/-- Complex division; division by exact zero yields NaN, never a fault. -/
def divC : CNum → CNum → CNum
  | CNum.val a b, CNum.val c d =>
    if c * c + d * d = 0 then CNum.nan
    else CNum.val ((a * c + b * d) / (c * c + d * d)) ((b * c - a * d) / (c * c + d * d))
  | _, _ => CNum.nan

/-- Complex negation with NaN propagation. -/
def negC : CNum → CNum
  | CNum.val a b => CNum.val (-a) (-b)
  | CNum.nan => CNum.nan

/-! ## Dimension -/

/-- Modelled from the spec: ordered tuple of 7 rational exponents over the
base dimensions (length, mass, time, current, temperature, amount, luminous
intensity); the zero vector is "dimensionless". -/
structure Dimension where
  length : ℚ
  mass : ℚ
  time : ℚ
  current : ℚ
  temperature : ℚ
  amount : ℚ
  luminousIntensity : ℚ
deriving DecidableEq

/-- The dimensionless (zero) vector. -/
def dimZero : Dimension := ⟨0, 0, 0, 0, 0, 0, 0⟩

/-- Elementwise sum (unit multiplication). -/
def dimAdd (a b : Dimension) : Dimension :=
  ⟨a.length + b.length, a.mass + b.mass, a.time + b.time, a.current + b.current,
   a.temperature + b.temperature, a.amount + b.amount,
   a.luminousIntensity + b.luminousIntensity⟩

/-- Elementwise negation (unit inversion). -/
def dimNeg (a : Dimension) : Dimension :=
  ⟨-a.length, -a.mass, -a.time, -a.current, -a.temperature, -a.amount,
   -a.luminousIntensity⟩

/-- Elementwise multiplication by a rational (raising to a power). -/
def dimScale (a : Dimension) (k : ℚ) : Dimension :=
  ⟨k * a.length, k * a.mass, k * a.time, k * a.current, k * a.temperature,
   k * a.amount, k * a.luminousIntensity⟩

/-! ## Quantity -/

/-- Modelled from the spec: a `Quantity` is a `ComplexNumber` tagged with a
`Dimension` and an optional display unit (conversion factor + label); the
value is always stored in base (SI) units and the display unit is consulted
only when formatting. -/
structure Quantity where
  value : CNum
  dim : Dimension
  displayUnit : Option (ℚ × String)
deriving DecidableEq

/-- The NaN quantity: NaN-valued and dimensionless. -/
def nanQ : Quantity := ⟨CNum.nan, dimZero, none⟩

/-- A dimensionless quantity from a complex number. -/
def Quantity.ofCNum (c : CNum) : Quantity := ⟨c, dimZero, none⟩

/-- A dimensionless quantity from a rational (the `HNumber` constructor). -/
def Quantity.ofRat (x : ℚ) : Quantity := ⟨CNum.val x 0, dimZero, none⟩

/-- Modelled from the spec: addition requires dimension equality; on
mismatch the result is NaN-valued and dimensionless (a documented failure
mode, not a fault). -/
def qadd (a b : Quantity) : Quantity :=
  if a.dim = b.dim then ⟨addC a.value b.value, a.dim, none⟩ else nanQ

/-- Modelled from the spec: subtraction, with the same mismatch rule as
addition. -/
def qsub (a b : Quantity) : Quantity :=
  if a.dim = b.dim then ⟨subC a.value b.value, a.dim, none⟩ else nanQ

/-- Modelled from the spec: multiplication always succeeds numerically and
combines the dimensions elementwise. -/
def qmul (a b : Quantity) : Quantity := ⟨mulC a.value b.value, dimAdd a.dim b.dim, none⟩

/-- Modelled from the spec: division combines with the inverted dimension;
division by zero is NaN-valued. -/
def qdiv (a b : Quantity) : Quantity := ⟨divC a.value b.value, dimAdd a.dim (dimNeg b.dim), none⟩

/-- Negation preserves the dimension. -/
def qneg (a : Quantity) : Quantity := ⟨negC a.value, a.dim, a.displayUnit⟩

/-- Modelled from the spec: `setDisplayUnit(factor, label)` records a
display override without touching `value`. -/
def setDisplayUnit (a : Quantity) (factor : ℚ) (label : String) : Quantity :=
  ⟨a.value, a.dim, some (factor, label)⟩

/-! ## Unit catalog -/

/-- Modelled from the spec: `Units::meter()` — "1" with length exponent 1. -/
def Units.meter : Quantity := ⟨CNum.val 1 0, ⟨1, 0, 0, 0, 0, 0, 0⟩, none⟩

/-- Modelled from the spec: `Units::kilogram()`. -/
def Units.kilogram : Quantity := ⟨CNum.val 1 0, ⟨0, 1, 0, 0, 0, 0, 0⟩, none⟩

/-- Modelled from the spec: `Units::second()`. -/
def Units.second : Quantity := ⟨CNum.val 1 0, ⟨0, 0, 1, 0, 0, 0, 0⟩, none⟩

/-- Modelled from the spec: `Units::ampere()`. -/
def Units.ampere : Quantity := ⟨CNum.val 1 0, ⟨0, 0, 0, 1, 0, 0, 0⟩, none⟩

/-- Modelled from the spec: `Units::kelvin()`. -/
def Units.kelvin : Quantity := ⟨CNum.val 1 0, ⟨0, 0, 0, 0, 1, 0, 0⟩, none⟩

/-- Modelled from the spec: `Units::mole()`. -/
def Units.mole : Quantity := ⟨CNum.val 1 0, ⟨0, 0, 0, 0, 0, 1, 0⟩, none⟩

/-- Modelled from the spec: `Units::candela()`. -/
def Units.candela : Quantity := ⟨CNum.val 1 0, ⟨0, 0, 0, 0, 0, 0, 1⟩, none⟩

/-- Modelled from the spec: `Units::joule()` = kg·m²·s⁻². -/
def Units.joule : Quantity := ⟨CNum.val 1 0, ⟨2, 1, -2, 0, 0, 0, 0⟩, none⟩

/-- Modelled from the spec: `Units::coulomb()` = A·s. -/
def Units.coulomb : Quantity := ⟨CNum.val 1 0, ⟨0, 0, 1, 1, 0, 0, 0⟩, none⟩

/-! ## Formatter -/

/-- Round-half-away-from-zero to the nearest integer. -/
def intRoundAway (y : ℚ) : ℤ := if 0 ≤ y then ⌊y + 1 / 2⌋ else -⌊-y + 1 / 2⌋

/-- Truncation toward zero to an integer. -/
def intTruncZ (y : ℚ) : ℤ := if 0 ≤ y then ⌊y⌋ else -⌊-y⌋

/-- Decimal digit string of a natural number. -/
def natDecStr (n : ℕ) : String := Nat.repr n

/-- Render an integer in decimal with a leading minus sign when negative. -/
def intDecStr (z : ℤ) : String :=
  if z < 0 then "-" ++ natDecStr z.natAbs else natDecStr z.natAbs

/-- Left-pad a digit string with zeros to the given width. -/
def padZeros (w : ℕ) (s : String) : String :=
  String.mk (List.replicate (w - s.length) '0') ++ s

/-- Drop trailing `'0'` characters (trailing-zero suppression in `'f'` mode). -/
def stripZeros (s : String) : String :=
  String.mk (((s.toList).reverse.dropWhile (fun c => c == '0')).reverse)

/-- Modelled from the spec: fixed (`'f'`) rendering of a real at the default
display precision: round to 20 fractional digits and suppress trailing
zeros. -/
def formatFixedAuto (x : ℚ) : String :=
  let m := intRoundAway (x * 10 ^ 20)
  let n := m.natAbs
  let frac := stripZeros (padZeros 20 (natDecStr (n % 10 ^ 20)))
  (if m < 0 then "-" else "") ++ natDecStr (n / 10 ^ 20) ++
    (if frac = "" then "" else "." ++ frac)

/-- Modelled from the spec: fixed (`'f'`) rendering of a real at an explicit
precision: exactly `p` fractional digits. -/
def formatFixedPrec (x : ℚ) (p : ℕ) : String :=
  let m := intRoundAway (x * 10 ^ p)
  let n := m.natAbs
  (if m < 0 then "-" else "") ++ natDecStr (n / 10 ^ p) ++
    (if p = 0 then "" else "." ++ padZeros p (natDecStr (n % 10 ^ p)))

/-- Fixed rendering dispatching on the requested precision (negative means
the default full-precision mode). -/
def formatFixed (x : ℚ) (p : ℤ) : String :=
  if p < 0 then formatFixedAuto x else formatFixedPrec x p.toNat

/-- Binary digit accumulator (fuel-driven). -/
def natBinAux : ℕ → ℕ → List Char → List Char
  | 0, _, acc => acc
  | _ + 1, 0, acc => acc
  | fuel + 1, n + 1, acc =>
    natBinAux fuel ((n + 1) / 2) ((if (n + 1) % 2 = 1 then '1' else '0') :: acc)

/-- Binary digit string of a natural number (for `n < 2^600`). -/
def natBinStr (n : ℕ) : String :=
  if n = 0 then "0" else String.mk (natBinAux 600 n [])

/-- Modelled from the spec: the `HighPrecisionReal` base-2 formatter.  It
returns digits only — no `"0b"` marker; that marker is the caller's concern.
The fractional width of 67 bits is the working-precision width observed in
the reference test output (none of the claims depend on this width); trailing
zeros are suppressed as in `'f'` mode. -/
def formatBin (x : ℚ) : String :=
  let m := intRoundAway (x * 2 ^ 67)
  let n := m.natAbs
  let frac := stripZeros (padZeros 67 (natBinStr (n % 2 ^ 67)))
  (if m < 0 then "-" else "") ++ natBinStr (n / 2 ^ 67) ++
    (if frac = "" then "" else "." ++ frac)

/-- Render the exponent suffix of one dimension entry: nothing for 1, a
superscript glyph for 2, `^k` for other integers, `^(num/den)` for
non-integer rationals. -/
def expSuffixStr (e : ℚ) : String :=
  if e = 1 then ""
  else if e = 2 then "²"
  else if e.den = 1 then "^" ++ intDecStr e.num
  else "^(" ++ intDecStr e.num ++ "/" ++ natDecStr e.den ++ ")"

/-- Render one entry of the dimension vector (empty for exponent 0). -/
def unitEntryStr (name : String) (e : ℚ) : String :=
  if e = 0 then "" else " " ++ name ++ expSuffixStr e

/-- Modelled from the spec: iterate the `Dimension` vector in its fixed
order, emitting one suffix component per nonzero exponent. -/
def dimSuffixStr (d : Dimension) : String :=
  unitEntryStr "meter" d.length ++ unitEntryStr "kilogram" d.mass ++
  unitEntryStr "second" d.time ++ unitEntryStr "ampere" d.current ++
  unitEntryStr "kelvin" d.temperature ++ unitEntryStr "mole" d.amount ++
  unitEntryStr "candela" d.luminousIntensity

/-- Render the numeric part of a finite complex value; a complex value is
parenthesised when a unit suffix follows. -/
def formatCNumVal (re im : ℚ) (suffixFollows : Bool) (p : ℤ) : String :=
  if im = 0 then formatFixed re p
  else
    let s := formatFixed re p ++
      (if 0 ≤ im then "+" ++ formatFixed im p else "-" ++ formatFixed (-im) p) ++ "j"
    if suffixFollows then "(" ++ s ++ ")" else s

/-- Modelled from the spec: `DMath::format(q, formatChar, precision)`.
A NaN-valued quantity renders as `"NaN"` regardless of base, precision and
unit.  If a display unit is set, the stored (SI) value is divided by the
display factor and the label is used as the suffix; otherwise the suffix is
composed from the `Dimension` vector.  Base-2 output (`'b'`) prepends the
`"0b"` marker to the digits returned by the real-number formatter (the model
covers base-2 output for real values, the only case the spec exercises). -/
def dmFormat (q : Quantity) (fchar : Char) (p : ℤ) : String :=
  match q.value with
  | CNum.nan => "NaN"
  | CNum.val re0 im0 =>
    let resolved := match q.displayUnit with
      | some fl => divC (CNum.val re0 im0) (CNum.val fl.1 0)
      | none => CNum.val re0 im0
    let sfx := match q.displayUnit with
      | some fl => " " ++ fl.2
      | none => dimSuffixStr q.dim
    match resolved with
    | CNum.nan => "NaN"
    | CNum.val re im =>
      if fchar = 'b' then "0b" ++ formatBin re ++ sfx
      else formatCNumVal re im (!(sfx = "")) p ++ sfx

/-- Default call `DMath::format(q, 'f')`, as used by the test driver's
`CHECK` macro (full default precision). -/
def dmFormatDef (q : Quantity) : String := dmFormat q 'f' (-1)

/-! ## MathOps (the DMath façade) -/

/-- Modelled from the spec: `DMath::pi()` — a dimensionless constant at
working precision. -/
def DMath.pi : Quantity := ⟨CNum.val (ratOfFx piFx) 0, dimZero, none⟩

/-- Round-half-away-from-zero to `n` fractional digits. -/
def roundQ (x : ℚ) (n : ℕ) : ℚ := ((intRoundAway (x * 10 ^ n) : ℚ)) / 10 ^ n

/-- Truncation toward zero to `n` fractional digits. -/
def truncQ (x : ℚ) (n : ℕ) : ℚ := ((intTruncZ (x * 10 ^ n) : ℚ)) / 10 ^ n

/-- Apply a real rounding map to both components of a complex value. -/
def mapC (f : ℚ → ℚ) : CNum → CNum
  | CNum.nan => CNum.nan
  | CNum.val re im => CNum.val (f re) (f im)

/-- Modelled from the spec: `DMath::round(q, n)` — dimensionless only;
a dimensioned argument yields the NaN quantity. -/
def DMath.round (q : Quantity) (n : ℕ) : Quantity :=
  if q.dim = dimZero then ⟨mapC (fun x => roundQ x n) q.value, dimZero, none⟩ else nanQ

/-- Modelled from the spec: `DMath::trunc(q, n)` — dimensionless only;
a dimensioned argument yields the NaN quantity. -/
def DMath.trunc (q : Quantity) (n : ℕ) : Quantity :=
  if q.dim = dimZero then ⟨mapC (fun x => truncQ x n) q.value, dimZero, none⟩ else nanQ

/-- Numeric square root of a finite value.  Real nonnegative operands take
the real principal root; the model restricts to the real operands the spec
exercises and propagates NaN otherwise. -/
def sqrtC : CNum → CNum
  | CNum.val re im => if im = 0 ∧ 0 ≤ re then CNum.val (rsqrtQ re) 0 else CNum.nan
  | CNum.nan => CNum.nan

/-- Modelled from the spec: `DMath::sqrt` — numeric square root with the
dimension scaled elementwise by 1/2. -/
def DMath.sqrt (q : Quantity) : Quantity :=
  ⟨sqrtC q.value, dimScale q.dim (1 / 2), none⟩

/-- Numeric real cube root of a finite value (sign-preserving). -/
def cbrtC : CNum → CNum
  | CNum.val re im => if im = 0 then CNum.val (rcbrtQ re) 0 else CNum.nan
  | CNum.nan => CNum.nan

/-- Modelled from the spec: `DMath::cbrt` — numeric cube root with the
dimension scaled elementwise by 1/3. -/
def DMath.cbrt (q : Quantity) : Quantity :=
  ⟨cbrtC q.value, dimScale q.dim (1 / 3), none⟩

/-- Modelled from the spec: the real-number power kernel.  Integer
exponents are exact.  For a fractional exponent: a positive base uses
`exp (e·ln b)`; a negative base branches on `complexMode` — when false the
real principal root is taken (defined only when the reduced denominator is
odd, with the sign given by the parity of the numerator), when true the full
principal complex value `|b|^e·(cos(πe) + i·sin(πe))` is produced. -/
def realRaise (complexMode : Bool) (b e : ℚ) : CNum :=
  if e.den = 1 then
    if b = 0 ∧ e.num < 0 then CNum.nan else CNum.val (b ^ e.num) 0
  else if 0 < b then CNum.val (powPosFx b e) 0
  else if b = 0 then CNum.val 0 0
  else if complexMode then
    let r := fxOfRat (powPosFx (-b) e)
    let a := fxMul (fxOfRat e) piFx
    CNum.val (ratOfFx (fxMul r (cosFx a))) (ratOfFx (fxMul r (sinFx a)))
  else if e.den % 2 = 1 then
    let mag := powPosFx (-b) e
    CNum.val (if e.num % 2 = 0 then mag else -mag) 0
  else CNum.nan

/-- Numeric power with NaN propagation; the model covers real exponents (the
only exponent shape the spec's examples exercise) and real bases. -/
def raiseC (complexMode : Bool) : CNum → ℚ → CNum
  | CNum.nan, _ => CNum.nan
  | CNum.val re im, e => if im = 0 then realRaise complexMode re e else CNum.nan

/-- Modelled from the spec: a rational exponent is "exactly
integer-or-simple-fraction representable as a `Dimension` scale" when its
reduced denominator is small; the bound is a modelling constant — every
value the spec exercises is far on one side or the other of it. -/
def simpleFraction (e : ℚ) : Bool := e.den ≤ 10 ^ 9

/-- Modelled from the spec: `DMath::raise(base, exp)`.  The exponent must
be dimensionless; a dimensionless base takes the purely numeric power; a
dimensioned base additionally requires a real, simple-fraction exponent,
and the dimension is scaled by the exponent's numeric value.  `complexMode`
is the branch-selection flag (threaded explicitly, as §9 of the spec
recommends); the engine's documented default is modelled as `false`. -/
def DMath.raise (complexMode : Bool) (base expq : Quantity) : Quantity :=
  if expq.dim = dimZero then
    match expq.value with
    | CNum.nan => nanQ
    | CNum.val e ei =>
      if base.dim = dimZero then
        if ei = 0 then ⟨raiseC complexMode base.value e, dimZero, none⟩ else nanQ
      else if ei = 0 ∧ simpleFraction e then
        ⟨raiseC complexMode base.value e, dimScale base.dim e, none⟩
      else nanQ
  else nanQ

/-- Modelled from the spec: `DMath::sin` — defined on dimensionless
arguments only; a dimensioned argument yields the NaN quantity.  The numeric
sine is evaluated at working precision (the model covers the real arguments
the spec exercises). -/
def DMath.sin (q : Quantity) : Quantity :=
  if q.dim = dimZero then
    match q.value with
    | CNum.nan => nanQ
    | CNum.val re im =>
      if im = 0 then ⟨CNum.val (ratOfFx (sinFx (fxOfRat re))) 0, dimZero, none⟩ else nanQ
  else nanQ

/-! ## Parsing -/

/-- Consume a maximal run of decimal digits, returning the accumulated value,
the number of digits consumed and the rest of the input. -/
def parseDigitsAux : List Char → ℕ → ℕ → ℕ × ℕ × List Char
  | [], v, n => (v, n, [])
  | c :: cs, v, n =>
    if c.isDigit then parseDigitsAux cs (10 * v + (c.toNat - 48)) (n + 1)
    else (v, n, c :: cs)

/-- Modelled from the spec: the `<real>` production — optional sign,
digits, optional `.` fraction.  Returns the value and the unconsumed rest. -/
def parseReal (l : List Char) : Option (ℚ × List Char) :=
  let sl : ℚ × List Char := match l with
    | '+' :: t => (1, t)
    | '-' :: t => (-1, t)
    | t => (1, t)
  let ip := parseDigitsAux sl.2 0 0
  if ip.2.1 = 0 then none
  else match ip.2.2 with
    | '.' :: l3 =>
      let fp := parseDigitsAux l3 0 0
      if fp.2.1 = 0 then none
      else some (sl.1 * ((ip.1 : ℚ) + (fp.1 : ℚ) / 10 ^ fp.2.1), fp.2.2)
    | rest => some (sl.1 * (ip.1 : ℚ), rest)

/-- Modelled from the spec: the `CNumber` string constructor, accepting the
grammar `<real>[<sign><real>j] | <real>j`. -/
def parseCNum (s : String) : Option CNum :=
  match parseReal s.toList with
  | none => none
  | some r1 =>
    match r1.2 with
    | [] => some (CNum.val r1.1 0)
    | ['j'] => some (CNum.val 0 r1.1)
    | c :: t =>
      if c = '+' ∨ c = '-' then
        match parseReal (c :: t) with
        | some (r2, ['j']) => some (CNum.val r1.1 r2)
        | _ => none
      else none

/-- Modelled from the spec: the `HNumber` string constructor — a bare
`<real>` literal. -/
def parseHNum (s : String) : Option ℚ :=
  match parseReal s.toList with
  | some (r, []) => some r
  | _ => none

/-! ## Test driver (`src/tests/testdmath.cpp`)

This part is embedded from the source in the repository slice: the three
check helpers maintain `dmath_total_tests`, `dmath_failed_tests` and
`dmath_new_failed_tests`, and `main` returns `dmath_failed_tests` (which the
operating system truncates modulo 256 into the process exit code). -/

/-- The driver's three counters. -/
structure TestState where
  total : ℕ
  failed : ℕ
  newFailed : ℕ
deriving DecidableEq

/-- One executed check, abstracted to the formatted result string it
compared, the expected string, and (for `check_value`) the known-issue
number (`0` means none supplied). -/
inductive CheckEvent where
  | value (result expected : String) (issue : ℕ)
  | fmt (result expected : String)
  | precise (result expected : String)
deriving DecidableEq

/-- The formatted result carried by an event. -/
def CheckEvent.resultOf : CheckEvent → String
  | CheckEvent.value r _ _ => r
  | CheckEvent.fmt r _ => r
  | CheckEvent.precise r _ => r

/-- The expected string carried by an event. -/
def CheckEvent.expectedOf : CheckEvent → String
  | CheckEvent.value _ e _ => e
  | CheckEvent.fmt _ e => e
  | CheckEvent.precise _ e => e

/-- A check passes when the formatted result equals the expected string. -/
def CheckEvent.passes (ev : CheckEvent) : Prop := ev.resultOf = ev.expectedOf

instance (ev : CheckEvent) : Decidable ev.passes := by
  unfold CheckEvent.passes
  infer_instance

/-- Embeds `check_value(file, line, msg, q, expected, issue)`: increment the total
count; on mismatch increment the failure count and, when no issue number was
supplied, the new-failure count. -/
def checkValueStep (s : TestState) (result expected : String) (issue : ℕ) : TestState :=
  if result = expected then ⟨s.total + 1, s.failed, s.newFailed⟩
  else if issue = 0 then ⟨s.total + 1, s.failed + 1, s.newFailed + 1⟩
  else ⟨s.total + 1, s.failed + 1, s.newFailed⟩

/-- Embeds `check_format`: increment the total count and, on mismatch, the failure
count (it never touches the new-failure count). -/
def checkFormatStep (s : TestState) (result expected : String) : TestState :=
  if result = expected then ⟨s.total + 1, s.failed, s.newFailed⟩
  else ⟨s.total + 1, s.failed + 1, s.newFailed⟩

/-- Embeds `check_precise`: same counter discipline as `check_format`. -/
def checkPreciseStep (s : TestState) (result expected : String) : TestState :=
  if result = expected then ⟨s.total + 1, s.failed, s.newFailed⟩
  else ⟨s.total + 1, s.failed + 1, s.newFailed⟩

/-- Dispatch one check to its helper. -/
def stepCheck (s : TestState) : CheckEvent → TestState
  | CheckEvent.value r e i => checkValueStep s r e i
  | CheckEvent.fmt r e => checkFormatStep s r e
  | CheckEvent.precise r e => checkPreciseStep s r e

/-- A run of the driver: all counters start at zero and every executed check
is folded through its helper. -/
def runChecks (evs : List CheckEvent) : TestState :=
  evs.foldl stepCheck ⟨0, 0, 0⟩

/-- Embeds the result of `main`: it returns `dmath_failed_tests`. -/
def mainReturn (evs : List CheckEvent) : ℕ := (runChecks evs).failed

/-- The process exit code is `main`'s return value modulo 256. -/
def exitCode (evs : List CheckEvent) : ℕ := mainReturn evs % 256

/-- The known-issue number carried by an event (`0` when none was
supplied, as for the helpers that have no issue parameter). -/
def CheckEvent.issueOf : CheckEvent → ℕ
  | CheckEvent.value _ _ i => i
  | CheckEvent.fmt _ _ => 0
  | CheckEvent.precise _ _ => 0

/-- Boolean mismatch test for an event. -/
def CheckEvent.failsB (ev : CheckEvent) : Bool := !(ev.resultOf == ev.expectedOf)

/-! ## Theorems -/

set_option maxRecDepth 40000

unseal Rat.add Rat.mul Rat.inv Rat.sub

/-- C1: raising the dimensioned quantity −2 ampere to the fractional exponent
0.6 formats (fixed, full precision) as the single negative real
`"-1.51571656651039808235 ampere^(3/5)"` when `complexMode` is false, and as
the full principal complex value
`"(-0.46838217770735830743+1.44153211743623063689j) ampere^(3/5)"`
(parenthesised because a unit suffix follows) when `complexMode` is true. -/
theorem c1_raise_negative_base_complexMode :
    dmFormatDef (DMath.raise false (qmul (Quantity.ofRat (-2)) Units.ampere)
      (Quantity.ofRat (3 / 5))) = "-1.51571656651039808235 ampere^(3/5)" ∧
    dmFormatDef (DMath.raise true (qmul (Quantity.ofRat (-2)) Units.ampere)
      (Quantity.ofRat (3 / 5))) =
      "(-0.46838217770735830743+1.44153211743623063689j) ampere^(3/5)" :=
  ⟨by decide, by decide⟩

/-- C4: for every quantity `q`, the dimension of `q * q` is the elementwise
sum of `q`'s dimension with itself, the dimension of `sqrt q` is `q`'s
dimension scaled by 1/2, and that of `cbrt q` is scaled by 1/3; concretely
`sqrt (36 second)` formats as `"6 second^(1/2)"` and `cbrt (125 second)` as
`"5 second^(1/3)"`. -/
theorem c4_dimension_algebra :
    (∀ q : Quantity, (qmul q q).dim = dimAdd q.dim q.dim ∧
      (DMath.sqrt q).dim = dimScale q.dim (1 / 2) ∧
      (DMath.cbrt q).dim = dimScale q.dim (1 / 3)) ∧
    dmFormatDef (DMath.sqrt (qmul (Quantity.ofRat 36) Units.second)) = "6 second^(1/2)" ∧
    dmFormatDef (DMath.cbrt (qmul (Quantity.ofRat 125) Units.second)) = "5 second^(1/3)" :=
  ⟨fun _ => ⟨rfl, rfl, rfl⟩, by decide, by decide⟩

/-- C7: `setDisplayUnit` never changes the stored value or the dimension —
only display metadata; concretely, after `a = 123 meter` and
`a.setDisplayUnit(0.3, "foot")`, `a` formats as `"410 foot"` while its
stored value is unchanged. -/
theorem c7_setDisplayUnit_frame :
    (∀ (q : Quantity) (f : ℚ) (label : String),
      (setDisplayUnit q f label).value = q.value ∧
      (setDisplayUnit q f label).dim = q.dim) ∧
    (setDisplayUnit (qmul (Quantity.ofRat 123) Units.meter) (3 / 10) "foot").value =
      (qmul (Quantity.ofRat 123) Units.meter).value ∧
    dmFormatDef (setDisplayUnit (qmul (Quantity.ofRat 123) Units.meter) (3 / 10) "foot") =
      "410 foot" :=
  ⟨fun _ _ _ => ⟨rfl, rfl⟩, rfl, by decide⟩

/-- C9 (counterexample): the grammar accepts `"1.50"`, but parsing it and
formatting the result with the default fixed format yields `"1.5"`, not the
original literal text — so parse-then-format does not return the literal
text for every literal in the grammar. -/
theorem c9_roundtrip_counterexample :
    (parseCNum "1.50").isSome = true ∧
    dmFormatDef (Quantity.ofCNum ((parseCNum "1.50").getD CNum.nan)) = "1.5" ∧
    ("1.5" == "1.50") = false :=
  ⟨by decide, by decide, by decide⟩

/-- C9 (amended): complex parsing accepts the grammar
`<real>[<sign><real>j] | <real>j` (each production witnessed below), and for
the spec's test literals `"123.45+654j"` and `"123.45"` parsing followed by
default fixed formatting returns the literal text. -/
theorem c9_parse_grammar :
    parseCNum "123.45+654j" = some (CNum.val (2469 / 20) 654) ∧
    dmFormatDef (Quantity.ofCNum (CNum.val (2469 / 20) 654)) = "123.45+654j" ∧
    parseHNum "123.45" = some (2469 / 20) ∧
    dmFormatDef (Quantity.ofRat (2469 / 20)) = "123.45" ∧
    parseCNum "123.45-654j" = some (CNum.val (2469 / 20) (-654)) ∧
    parseCNum "654j" = some (CNum.val 0 654) ∧
    parseCNum "" = none ∧
    parseCNum "1.5+2" = none :=
  ⟨by decide, by decide, by decide, by decide, by decide, by decide, by decide, by decide⟩

/-- C2: every dimensional mismatch — adding or subtracting quantities of
different dimensions, or passing a dimensioned quantity to the
dimensionless-only `sin` — produces the NaN-valued dimensionless quantity,
which formats as exactly `"NaN"`; `candela + second` and `sin meter` format
as `"NaN"`, while `sin (pi)` on a dimensionless argument formats as `"0"`. -/
theorem c2_dimensional_mismatch_nan :
    (∀ a b : Quantity, a.dim ≠ b.dim →
      qadd a b = nanQ ∧ qsub a b = nanQ ∧
      dmFormatDef (qadd a b) = "NaN" ∧ dmFormatDef (qsub a b) = "NaN") ∧
    (∀ q : Quantity, q.dim ≠ dimZero →
      DMath.sin q = nanQ ∧ dmFormatDef (DMath.sin q) = "NaN") ∧
    dmFormatDef (qadd Units.candela Units.second) = "NaN" ∧
    dmFormatDef (DMath.sin Units.meter) = "NaN" ∧
    dmFormatDef (DMath.sin DMath.pi) = "0" := by
  refine ⟨?_, ?_, by decide, by decide, by decide⟩
  · intro a b h
    have e1 : qadd a b = nanQ := by simp [qadd, h]
    have e2 : qsub a b = nanQ := by simp [qsub, h]
    exact ⟨e1, e2, by rw [e1]; rfl, by rw [e2]; rfl⟩
  · intro q h
    have e : DMath.sin q = nanQ := by simp [DMath.sin, h]
    exact ⟨e, by rw [e]; rfl⟩

/-- C2 witness: the universal mismatch rules evaluated at
`candela + second` and `sin meter`. -/
theorem c2_witness :
    (Units.candela.dim ≠ Units.second.dim ∧ qadd Units.candela Units.second = nanQ) ∧
    (Units.meter.dim ≠ dimZero ∧ DMath.sin Units.meter = nanQ) :=
  ⟨⟨by decide, (c2_dimensional_mismatch_nan.1 Units.candela Units.second (by decide)).1⟩,
   ⟨by decide, (c2_dimensional_mismatch_nan.2.1 Units.meter (by decide)).1⟩⟩

/-- C3: `raise` requires a dimensionless exponent, and a dimensioned base
additionally requires an exponent exactly representable as a simple-fraction
`Dimension` scale, otherwise the result is NaN; concretely `raise(2, pi)`
formats as `"8.82497782707628762386"`, `raise(2·ampere, pi)` as `"NaN"`, and
`raise(-2·ampere, 1.5)` as `"NaN"`. -/
theorem c3_raise_exponent_rules :
    (∀ (m : Bool) (b e : Quantity), e.dim ≠ dimZero → DMath.raise m b e = nanQ) ∧
    (∀ (m : Bool) (b : Quantity) (r : ℚ), b.dim ≠ dimZero → simpleFraction r = false →
      DMath.raise m b (Quantity.ofRat r) = nanQ) ∧
    dmFormatDef (DMath.raise false (Quantity.ofRat 2) DMath.pi) = "8.82497782707628762386" ∧
    dmFormatDef (DMath.raise false (qmul (Quantity.ofRat 2) Units.ampere) DMath.pi) = "NaN" ∧
    dmFormatDef (DMath.raise false (qmul (Quantity.ofRat (-2)) Units.ampere)
      (Quantity.ofRat (3 / 2))) = "NaN" := by
  refine ⟨?_, ?_, by decide, by decide, by decide⟩
  · intro m b e h
    simp [DMath.raise, h]
  · intro m b r hb hs
    simp [DMath.raise, Quantity.ofRat, hb, hs]

/-- C3 witness: the universal NaN rules evaluated at a dimensioned exponent
(`raise meter second`) and at the non-simple-fraction exponent π on the
dimensioned base `ampere`. -/
theorem c3_witness :
    (Units.second.dim ≠ dimZero ∧ DMath.raise false Units.meter Units.second = nanQ) ∧
    (Units.ampere.dim ≠ dimZero ∧ simpleFraction (ratOfFx piFx) = false ∧
      DMath.raise false Units.ampere (Quantity.ofRat (ratOfFx piFx)) = nanQ) :=
  ⟨⟨by decide, c3_raise_exponent_rules.1 false Units.meter Units.second (by decide)⟩,
   ⟨by decide, by decide,
    c3_raise_exponent_rules.2.1 false Units.ampere (ratOfFx piFx) (by decide) (by decide)⟩⟩

/-- C6: the unit suffix is rendered from the `Dimension` vector as: no
suffix for the zero vector, `" <name>"` for exponent 1, the superscript
glyph for exponent 2, `" <name>^<exp>"` for other integer exponents, and
`" <name>^(<num>/<den>)"` for non-integer rational exponents; concretely
`meter * meter` formats as `"1 meter²"` and `kilogram / second` as
`"1 kilogram second^-1"`. -/
theorem c6_unit_suffix_rendering :
    dimSuffixStr dimZero = "" ∧
    (∀ name : String, unitEntryStr name 0 = "" ∧
      unitEntryStr name 1 = " " ++ name ∧
      unitEntryStr name 2 = " " ++ name ++ "²") ∧
    (∀ (name : String) (e : ℚ), e ≠ 0 → e ≠ 1 → e ≠ 2 → e.den = 1 →
      unitEntryStr name e = " " ++ name ++ "^" ++ intDecStr e.num) ∧
    (∀ (name : String) (e : ℚ), e ≠ 0 → e.den ≠ 1 →
      unitEntryStr name e =
        " " ++ name ++ "^(" ++ intDecStr e.num ++ "/" ++ natDecStr e.den ++ ")") ∧
    dmFormatDef (qmul Units.meter Units.meter) = "1 meter²" ∧
    dmFormatDef (qdiv Units.kilogram Units.second) = "1 kilogram second^-1" := by
  refine ⟨by decide, ?_, ?_, ?_, by decide, by decide⟩
  · intro name
    refine ⟨by simp [unitEntryStr], ?_, ?_⟩
    · simp [unitEntryStr, expSuffixStr]
    · norm_num [unitEntryStr, expSuffixStr]
  · intro name e h0 h1 h2 hden
    simp [unitEntryStr, expSuffixStr, h0, h1, h2, hden, String.append_assoc]
  · intro name e h0 hden
    have h1 : e ≠ 1 := by
      intro h
      exact hden (by rw [h]; rfl)
    have h2 : e ≠ 2 := by
      intro h
      exact hden (by rw [h]; rfl)
    simp [unitEntryStr, expSuffixStr, h0, h1, h2, hden, String.append_assoc]

/-- C6 witness: the integer and fractional generic renderings evaluated at
`second^-1` and `second^(1/2)`. -/
theorem c6_witness :
    unitEntryStr "second" (-1) = " " ++ "second" ++ "^" ++ intDecStr (-1 : ℚ).num ∧
    unitEntryStr "second" (1 / 2) =
      " " ++ "second" ++ "^(" ++ intDecStr (1 / 2 : ℚ).num ++ "/" ++
        natDecStr (1 / 2 : ℚ).den ++ ")" :=
  ⟨c6_unit_suffix_rendering.2.2.1 "second" (-1) (by decide) (by decide) (by decide) (by decide),
   c6_unit_suffix_rendering.2.2.2.1 "second" (1 / 2) (by decide) (by decide)⟩

/-- Helper: the binary digit accumulator only ever emits `'0'` and `'1'`. -/
theorem natBinAux_chars (fuel : ℕ) :
    ∀ (n : ℕ) (acc : List Char), (∀ c ∈ acc, c = '0' ∨ c = '1') →
      ∀ c ∈ natBinAux fuel n acc, c = '0' ∨ c = '1' := by
  induction fuel with
  | zero =>
    intro n acc h c hc
    exact h c (by simpa [natBinAux] using hc)
  | succ fuel ih =>
    intro n acc h c hc
    match n with
    | 0 => exact h c (by simpa [natBinAux] using hc)
    | n + 1 =>
      rw [natBinAux] at hc
      refine ih ((n + 1) / 2) _ ?_ c hc
      intro d hd
      rcases List.mem_cons.1 hd with hd | hd
      · by_cases hp : (n + 1) % 2 = 1
        · right
          simpa [hp] using hd
        · left
          simpa [hp] using hd
      · exact h d hd

/-- Helper: a binary digit string contains only `'0'` and `'1'`. -/
theorem natBinStr_chars (n : ℕ) : ∀ c ∈ (natBinStr n).data, c = '0' ∨ c = '1' := by
  intro c hc
  unfold natBinStr at hc
  by_cases h : n = 0
  · left
    simpa [h] using hc
  · exact natBinAux_chars 600 n [] (by intro d hd; cases hd) c (by simpa [h] using hc)

/-- Helper: trailing-zero suppression only removes characters. -/
theorem stripZeros_subset (s : String) : ∀ c ∈ (stripZeros s).data, c ∈ s.data := by
  intro c hc
  have h1 : c ∈ s.data.reverse.dropWhile (fun c => c == '0') :=
    List.mem_reverse.1 (by simpa [stripZeros, String.toList] using hc)
  exact List.mem_reverse.1 (List.dropWhile_subset _ h1)

/-- Helper: left-padding only adds `'0'` characters. -/
theorem padZeros_chars (w : ℕ) (s : String) :
    ∀ c ∈ (padZeros w s).data, c = '0' ∨ c ∈ s.data := by
  intro c hc
  have hc2 : c ∈ List.replicate (w - s.length) '0' ++ s.data := hc
  rcases List.mem_append.1 hc2 with h | h
  · exact Or.inl (List.eq_of_mem_replicate h)
  · exact Or.inr h

/-- Helper: every character of the base-2 formatter's output is a sign, a
binary digit or the radix point — in particular it is never `'b'`. -/
theorem formatBin_chars (x : ℚ) :
    ∀ c ∈ (formatBin x).data, c = '-' ∨ c = '0' ∨ c = '1' ∨ c = '.' := by
  unfold formatBin
  set m := intRoundAway (x * 2 ^ 67) with hm
  set f := stripZeros (padZeros 67 (natBinStr (m.natAbs % 2 ^ 67))) with hf
  intro c hc
  simp only [String.data_append] at hc
  rcases List.mem_append.1 hc with hc1 | hc1
  · rcases List.mem_append.1 hc1 with hc2 | hc2
    · by_cases hs : m < 0
      · left
        simpa [hs] using hc2
      · simp [hs] at hc2
    · rcases natBinStr_chars _ c hc2 with h | h
      · right; left; exact h
      · right; right; left; exact h
  · by_cases he : f = ""
    · rw [if_pos he] at hc1
      cases hc1
    · rw [if_neg he] at hc1
      have hc3 : c ∈ ['.'] ++ f.data := hc1
      rcases List.mem_append.1 hc3 with hc2 | hc2
      · right; right; right
        simpa using hc2
      · have h3 := stripZeros_subset _ c (hf ▸ hc2)
        rcases padZeros_chars _ _ c h3 with h | h
        · right; left; exact h
        · rcases natBinStr_chars _ c h with h4 | h4
          · right; left; exact h4
          · right; right; left; exact h4

/-- C8: when formatting in base 2, the real-number formatter itself returns
only sign, digits and radix point — the `"0b"` marker is prepended by the
caller (`DMath::format`) and is not part of the formatter's output. -/
theorem c8_binary_marker :
    (∀ (re : ℚ) (d : Dimension) (p : ℤ),
      dmFormat ⟨CNum.val re 0, d, none⟩ 'b' p = "0b" ++ formatBin re ++ dimSuffixStr d) ∧
    (∀ x : ℚ, 'b' ∉ (formatBin x).data) ∧
    dmFormat (Quantity.ofRat (21 / 4)) 'b' (-1) = "0b101.01" ∧
    formatBin (21 / 4) = "101.01" := by
  refine ⟨fun re d p => rfl, ?_, by decide, by decide⟩
  intro x hb
  rcases formatBin_chars x 'b' hb with h | h | h | h <;> simp at h

/-- Helper: the away-from-zero rounder is bounded above on nonnegatives. -/
theorem intRoundAway_le (y : ℚ) (h : 0 ≤ y) : (intRoundAway y : ℚ) ≤ y + 1 / 2 := by
  unfold intRoundAway
  rw [if_pos h]
  exact Int.floor_le _

/-- Helper: the away-from-zero rounder is bounded below on nonnegatives. -/
theorem lt_intRoundAway (y : ℚ) (h : 0 ≤ y) : y - 1 / 2 < (intRoundAway y : ℚ) := by
  unfold intRoundAway
  rw [if_pos h]
  have h2 := Int.sub_one_lt_floor (y + 1 / 2)
  linarith

/-- Helper: the away-from-zero rounder is an odd function. -/
theorem intRoundAway_neg (y : ℚ) : intRoundAway (-y) = -intRoundAway y := by
  unfold intRoundAway
  rcases lt_trichotomy y 0 with h | h | h
  · rw [if_pos (by linarith), if_neg (not_le.2 h), neg_neg]
  · subst h
    rw [neg_zero, if_pos le_rfl, zero_add]
    have h0 : ⌊(1 / 2 : ℚ)⌋ = 0 := by decide
    rw [h0]
    rfl
  · rw [if_neg (by intro hc; linarith), if_pos h.le, neg_neg]

/-- Helper: truncation toward zero is bounded above on nonnegatives. -/
theorem intTruncZ_le (y : ℚ) (h : 0 ≤ y) : (intTruncZ y : ℚ) ≤ y := by
  unfold intTruncZ
  rw [if_pos h]
  exact Int.floor_le _

/-- Helper: truncation toward zero is bounded below on nonnegatives. -/
theorem lt_intTruncZ (y : ℚ) (h : 0 ≤ y) : y - 1 < (intTruncZ y : ℚ) := by
  unfold intTruncZ
  rw [if_pos h]
  exact Int.sub_one_lt_floor y

/-- Helper: truncation toward zero is an odd function. -/
theorem intTruncZ_neg (y : ℚ) : intTruncZ (-y) = -intTruncZ y := by
  unfold intTruncZ
  rcases lt_trichotomy y 0 with h | h | h
  · rw [if_pos (by linarith), if_neg (not_le.2 h), neg_neg]
  · subst h
    rw [neg_zero, if_pos le_rfl]
    have h0 : ⌊(0 : ℚ)⌋ = 0 := by decide
    rw [h0]
    rfl
  · rw [if_neg (by intro hc; linarith), if_pos h.le, neg_neg]

/-- C5: `round` and `trunc` are defined only on dimensionless quantities —
any dimensioned argument yields the NaN quantity, which formats as `"NaN"`;
on dimensionless input they round half-away-from-zero, resp. truncate toward
zero, to the requested number of fractional digits (characterised below by
grid membership, the half-open error windows and odd symmetry), so
`round(1.234, 1)` formats as `"1.2"` and `trunc(1.274, 1)` as `"1.2"`. -/
theorem c5_round_trunc_rules :
    (∀ (q : Quantity) (n : ℕ), q.dim ≠ dimZero →
      DMath.round q n = nanQ ∧ DMath.trunc q n = nanQ ∧
      dmFormatDef (DMath.round q n) = "NaN" ∧ dmFormatDef (DMath.trunc q n) = "NaN") ∧
    (∀ (x : ℚ) (n : ℕ),
      (∃ k : ℤ, roundQ x n = (k : ℚ) / 10 ^ n) ∧
      (∃ k : ℤ, truncQ x n = (k : ℚ) / 10 ^ n) ∧
      roundQ (-x) n = -roundQ x n ∧
      truncQ (-x) n = -truncQ x n ∧
      (0 ≤ x →
        -(1 / 2) / 10 ^ n < roundQ x n - x ∧ roundQ x n - x ≤ 1 / 2 / 10 ^ n ∧
        x - 1 / 10 ^ n < truncQ x n ∧ truncQ x n ≤ x)) ∧
    dmFormatDef (DMath.round (Quantity.ofRat (617 / 500)) 1) = "1.2" ∧
    dmFormatDef (DMath.trunc (Quantity.ofRat (637 / 500)) 1) = "1.2" := by
  refine ⟨?_, ?_, by decide, by decide⟩
  · intro q n h
    have e1 : DMath.round q n = nanQ := by simp [DMath.round, h]
    have e2 : DMath.trunc q n = nanQ := by simp [DMath.trunc, h]
    exact ⟨e1, e2, by rw [e1]; rfl, by rw [e2]; rfl⟩
  · intro x n
    have ht : (0 : ℚ) < 10 ^ n := by positivity
    refine ⟨⟨intRoundAway (x * 10 ^ n), rfl⟩, ⟨intTruncZ (x * 10 ^ n), rfl⟩, ?_, ?_, ?_⟩
    · unfold roundQ
      rw [neg_mul, intRoundAway_neg, Int.cast_neg, neg_div]
    · unfold truncQ
      rw [neg_mul, intTruncZ_neg, Int.cast_neg, neg_div]
    · intro hx
      have hy : 0 ≤ x * 10 ^ n := mul_nonneg hx ht.le
      have hr1 := intRoundAway_le (x * 10 ^ n) hy
      have hr2 := lt_intRoundAway (x * 10 ^ n) hy
      have ht1 := intTruncZ_le (x * 10 ^ n) hy
      have ht2 := lt_intTruncZ (x * 10 ^ n) hy
      have hxeq : x * 10 ^ n / 10 ^ n = x := mul_div_cancel_right₀ x (ne_of_gt ht)
      have keyR : roundQ x n - x = ((intRoundAway (x * 10 ^ n) : ℚ) - x * 10 ^ n) / 10 ^ n := by
        unfold roundQ
        rw [sub_div, hxeq]
      have keyT : truncQ x n - x = ((intTruncZ (x * 10 ^ n) : ℚ) - x * 10 ^ n) / 10 ^ n := by
        unfold truncQ
        rw [sub_div, hxeq]
      refine ⟨?_, ?_, ?_, ?_⟩
      · rw [keyR, div_lt_div_iff₀ ht ht]
        nlinarith
      · rw [keyR, div_le_div_iff₀ ht ht]
        nlinarith
      · have h3 : x - truncQ x n < 1 / 10 ^ n := by
          have h4 : x - truncQ x n = (x * 10 ^ n - (intTruncZ (x * 10 ^ n) : ℚ)) / 10 ^ n := by
            rw [show x - truncQ x n = -(truncQ x n - x) by ring, keyT]
            ring
          rw [h4, div_lt_div_iff₀ ht ht]
          nlinarith
        linarith
      · have h5 : truncQ x n - x ≤ 0 := by
          rw [keyT, div_le_iff₀ ht]
          nlinarith
        linarith

/-- C5 witness: the NaN rule evaluated at a joule-dimensioned argument, and
the error-window characterisation evaluated at `round(1.234, 1)`. -/
theorem c5_witness :
    ((qmul (Quantity.ofRat (617 / 500)) Units.joule).dim ≠ dimZero ∧
      DMath.round (qmul (Quantity.ofRat (617 / 500)) Units.joule) 0 = nanQ) ∧
    ((0 : ℚ) ≤ 617 / 500 ∧
      roundQ (617 / 500) 1 - 617 / 500 ≤ 1 / 2 / 10 ^ 1) :=
  ⟨⟨by decide, (c5_round_trunc_rules.1 (qmul (Quantity.ofRat (617 / 500)) Units.joule) 0
      (by decide)).1⟩,
   ⟨by norm_num,
    ((c5_round_trunc_rules.2.1 (617 / 500) 1).2.2.2.2 (by norm_num)).2.1⟩⟩

/-- Helper: every check helper increments the total count exactly once. -/
theorem stepCheck_total (s : TestState) (ev : CheckEvent) :
    (stepCheck s ev).total = s.total + 1 := by
  cases ev with
  | value r e i =>
    by_cases h : r = e
    · simp [stepCheck, checkValueStep, h]
    · by_cases h2 : i = 0 <;> simp [stepCheck, checkValueStep, h, h2]
  | fmt r e =>
    by_cases h : r = e <;> simp [stepCheck, checkFormatStep, h]
  | precise r e =>
    by_cases h : r = e <;> simp [stepCheck, checkPreciseStep, h]

/-- Helper: the failure count increments exactly on a mismatch. -/
theorem stepCheck_failed (s : TestState) (ev : CheckEvent) :
    (stepCheck s ev).failed = s.failed + (if ev.failsB then 1 else 0) := by
  cases ev with
  | value r e i =>
    by_cases h : r = e
    · simp [stepCheck, checkValueStep, CheckEvent.failsB, CheckEvent.resultOf,
        CheckEvent.expectedOf, h]
    · by_cases h2 : i = 0 <;>
        simp [stepCheck, checkValueStep, CheckEvent.failsB, CheckEvent.resultOf,
          CheckEvent.expectedOf, h, h2]
  | fmt r e =>
    by_cases h : r = e <;>
      simp [stepCheck, checkFormatStep, CheckEvent.failsB, CheckEvent.resultOf,
        CheckEvent.expectedOf, h]
  | precise r e =>
    by_cases h : r = e <;>
      simp [stepCheck, checkPreciseStep, CheckEvent.failsB, CheckEvent.resultOf,
        CheckEvent.expectedOf, h]

/-- Helper: the new-failure count never decreases, and it moves only on a
mismatching `check_value` with no known-issue number. -/
theorem stepCheck_newFailed (s : TestState) (ev : CheckEvent) :
    s.newFailed ≤ (stepCheck s ev).newFailed ∧
    (stepCheck s ev).newFailed ≤ s.newFailed + (if ev.failsB then 1 else 0) ∧
    ((stepCheck s ev).newFailed ≠ s.newFailed → ¬ ev.passes ∧ ev.issueOf = 0) := by
  cases ev with
  | value r e i =>
    by_cases h : r = e
    · simp [stepCheck, checkValueStep, CheckEvent.failsB, CheckEvent.resultOf,
        CheckEvent.expectedOf, h]
    · by_cases h2 : i = 0 <;>
        simp [stepCheck, checkValueStep, CheckEvent.failsB, CheckEvent.resultOf,
          CheckEvent.expectedOf, CheckEvent.passes, CheckEvent.issueOf, h, h2]
  | fmt r e =>
    by_cases h : r = e <;>
      simp [stepCheck, checkFormatStep, CheckEvent.failsB, h]
  | precise r e =>
    by_cases h : r = e <;>
      simp [stepCheck, checkPreciseStep, CheckEvent.failsB, h]

/-- Helper: total count after a fold. -/
theorem foldl_stepCheck_total (evs : List CheckEvent) :
    ∀ s : TestState, (evs.foldl stepCheck s).total = s.total + evs.length := by
  induction evs with
  | nil => intro s; simp
  | cons ev evs ih =>
    intro s
    rw [List.foldl_cons, ih, stepCheck_total]
    simp [Nat.add_assoc, Nat.add_comm 1]

/-- Helper: failure count after a fold is the number of mismatches. -/
theorem foldl_stepCheck_failed (evs : List CheckEvent) :
    ∀ s : TestState, (evs.foldl stepCheck s).failed = s.failed + evs.countP CheckEvent.failsB := by
  induction evs with
  | nil => intro s; simp
  | cons ev evs ih =>
    intro s
    rw [List.foldl_cons, ih, stepCheck_failed, List.countP_cons]
    by_cases h : ev.failsB
    · simp [h]
      omega
    · simp [h]

/-- Helper: new-failure count after a fold is bounded by the failure count. -/
theorem foldl_stepCheck_newFailed (evs : List CheckEvent) :
    ∀ s : TestState, s.newFailed ≤ (evs.foldl stepCheck s).newFailed ∧
      (evs.foldl stepCheck s).newFailed ≤ s.newFailed + evs.countP CheckEvent.failsB := by
  induction evs with
  | nil => intro s; simp
  | cons ev evs ih =>
    intro s
    rw [List.foldl_cons, List.countP_cons]
    have h1 := stepCheck_newFailed s ev
    have h2 := ih (stepCheck s ev)
    by_cases h : ev.failsB
    · simp only [h, if_pos] at h1 ⊢
      omega
    · simp only [h] at h1 ⊢
      omega

/-- Helper: failing and passing an event are complementary. -/
theorem failsB_iff (ev : CheckEvent) : ev.failsB = false ↔ ev.passes := by
  cases ev <;> simp [CheckEvent.failsB, CheckEvent.passes, CheckEvent.resultOf,
    CheckEvent.expectedOf]

/-- C10: each check helper adds one to the total count, adds one to the
failure count exactly on a mismatch, and moves the new-failure count only on
a mismatching `check_value` with no issue number; `main` returns the failure
count, so over any run `newFailed ≤ failed ≤ total = number of checks`, and
(for runs of at most 255 checks, which covers the driver's 26) the process
exit code is 0 iff every check passed. -/
theorem c10_driver_counters :
    (∀ (s : TestState) (ev : CheckEvent),
      (stepCheck s ev).total = s.total + 1 ∧
      (stepCheck s ev).failed = s.failed + (if ev.failsB then 1 else 0) ∧
      s.newFailed ≤ (stepCheck s ev).newFailed ∧
      ((stepCheck s ev).newFailed ≠ s.newFailed → ¬ ev.passes ∧ ev.issueOf = 0)) ∧
    (∀ evs : List CheckEvent,
      (runChecks evs).newFailed ≤ (runChecks evs).failed ∧
      (runChecks evs).failed ≤ (runChecks evs).total ∧
      (runChecks evs).total = evs.length ∧
      mainReturn evs = (runChecks evs).failed ∧
      (evs.length ≤ 255 → (exitCode evs = 0 ↔ ∀ ev ∈ evs, ev.passes))) := by
  constructor
  · intro s ev
    have h := stepCheck_newFailed s ev
    exact ⟨stepCheck_total s ev, stepCheck_failed s ev, h.1, h.2.2⟩
  · intro evs
    have htot : (runChecks evs).total = evs.length := by
      unfold runChecks
      simpa using foldl_stepCheck_total evs ⟨0, 0, 0⟩
    have hfail : (runChecks evs).failed = evs.countP CheckEvent.failsB := by
      unfold runChecks
      simpa using foldl_stepCheck_failed evs ⟨0, 0, 0⟩
    have hnew : (runChecks evs).newFailed ≤ evs.countP CheckEvent.failsB := by
      unfold runChecks
      simpa using (foldl_stepCheck_newFailed evs ⟨0, 0, 0⟩).2
    have hcount := List.countP_le_length (p := CheckEvent.failsB) (l := evs)
    refine ⟨?_, ?_, ?_, rfl, ?_⟩
    · omega
    · omega
    · omega
    · intro hlen
      unfold exitCode mainReturn
      rw [hfail]
      rw [Nat.mod_eq_of_lt (by omega)]
      rw [List.countP_eq_zero]
      constructor
      · intro h ev hev
        exact (failsB_iff ev).1 (by simpa using h ev hev)
      · intro h ev hev
        simpa using (failsB_iff ev).2 (h ev hev)

/-- C10 witness: the run-level equivalence evaluated on a one-check passing
run, and the new-failure characterisation evaluated on a failing
`check_value` with no issue number. -/
theorem c10_witness :
    (exitCode [CheckEvent.value "1 meter" "1 meter" 0] = 0 ↔
      ∀ ev ∈ [CheckEvent.value "1 meter" "1 meter" 0], ev.passes) ∧
    (¬ (CheckEvent.value "NaN" "0" 0).passes ∧ (CheckEvent.value "NaN" "0" 0).issueOf = 0) :=
  ⟨(c10_driver_counters.2 [CheckEvent.value "1 meter" "1 meter" 0]).2.2.2.2 (by decide),
   (c10_driver_counters.1 ⟨0, 0, 0⟩ (CheckEvent.value "NaN" "0" 0)).2.2.2 (by decide)⟩

/-- C8 witness: the marker split and the no-marker property of the inner
formatter, evaluated at the value 5.25. -/
theorem c8_witness :
    dmFormat ⟨CNum.val (21 / 4) 0, dimZero, none⟩ 'b' (-1) =
      "0b" ++ formatBin (21 / 4) ++ dimSuffixStr dimZero ∧
    'b' ∉ (formatBin (21 / 4)).data :=
  ⟨c8_binary_marker.1 (21 / 4) dimZero (-1), c8_binary_marker.2.1 (21 / 4)⟩

end SpeedCrunch
